import Mathlib

/-!
Verification of the ARED edge IOTA anchor service against its specification.

The development shallowly embeds the parts of the code that the checked
properties are about:

* the Merkle engine from app/crypto/merkle.py (tree construction as a
  bottom-up level fold, proof generation, proof verification), with SHA-256
  abstracted as an arbitrary function on byte lists: hashes are modelled as
  the digest byte lists (hex encoding is a bijection and is elided);
* the leaf-hash string branch from compute_leaf_hash (hex detection, hex
  decoding, UTF-8 encoding);
* the anchor message serialization from app/services/iota_client.py
  (json.dumps with compact separators over an insertion-ordered dict);
* the confirmation-wait loop of IOTAClient, with one list entry per poll
  iteration (the list ending models the confirmation timeout elapsing);
* the anchor workflow run_anchor_job from app/services/anchor_workflow.py,
  with the database and the ledger abstracted as oracles supplying each
  step's outcome, and raised exceptions modelled as Except values;
* the reconciliation decision functions from app/services/reconciliation.py.
-/

/-! ## Byte lists and the abstract hash -/

/-- Byte strings are lists of naturals; hash digests are byte lists (the code
stores digests hex-encoded, a bijection we elide). -/
abbrev Bytes := List Nat

/-- Leaf domain-separation byte 0x00 (merkle.py LEAF_PREFIX). -/
def leafPrefixBytes : Bytes := [0]

/-- Internal-node domain-separation byte 0x01 (merkle.py NODE_PREFIX). -/
def nodePrefixBytes : Bytes := [1]

/-- merkle.py compute_leaf_hash on a bytes input: H(0x00 concat data).
`H` abstracts SHA-256. -/
def compute_leaf_hash (H : Bytes → Bytes) (data : Bytes) : Bytes :=
  H (leafPrefixBytes ++ data)

/-- merkle.py compute_parent_hash: H(0x01 concat left concat right). -/
def compute_parent_hash (H : Bytes → Bytes) (left_hash right_hash : Bytes) : Bytes :=
  H (nodePrefixBytes ++ left_hash ++ right_hash)

/-! ## Tree construction (MerkleTree._build_tree) -/

/-- One pass of the inner while-loop of MerkleTree._build_tree: adjacent
nodes are paired left to right; an unpaired rightmost node is promoted
unchanged. -/
def build_level (H : Bytes → Bytes) : List Bytes → List Bytes
  | l :: r :: rest => compute_parent_hash H l r :: build_level H rest
  | level => level

theorem length_build_level (H : Bytes → Bytes) :
    ∀ l : List Bytes, (build_level H l).length = (l.length + 1) / 2
  | [] => by simp [build_level]
  | [_] => by simp [build_level]
  | _ :: _ :: rest => by
      simp only [build_level, List.length_cons, length_build_level H rest]
      omega

/-- The outer while-loop of MerkleTree._build_tree with explicit fuel
(structural recursion so that evaluation is kernel-reducible); each level
halves, so any fuel with level.length ≤ fuel + 1 runs the loop to the end. -/
def build_root_aux (H : Bytes → Bytes) : Nat → List Bytes → Bytes
  | 0, level => level.headD []
  | fuel + 1, level =>
    if level.length ≤ 1 then level.headD []
    else build_root_aux H fuel (build_level H level)

/-- The outer while-loop of MerkleTree._build_tree: reduce levels until one
node remains; that node's hash is the root. -/
def build_root (H : Bytes → Bytes) (level : List Bytes) : Bytes :=
  build_root_aux H level.length level

/-- The model of the MerkleTree class: the root hash plus the level-0 leaf
hashes (the only parts of the node graph the queried operations read). -/
structure MerkleTree where
  root_hash : Bytes
  leaves : List Bytes
deriving DecidableEq, Repr

/-- MerkleTree.from_leaves: hash each leaf datum with the leaf domain tag,
build bottom-up; ValueError on an empty input is modelled as none. -/
def MerkleTree.from_leaves (H : Bytes → Bytes) (leaves : List Bytes) : Option MerkleTree :=
  if leaves.isEmpty then none
  else
    some { root_hash := build_root H (leaves.map (compute_leaf_hash H))
           leaves := leaves.map (compute_leaf_hash H) }

/-- MerkleTree.from_raw_hashes: the given hashes are used directly as the
level-0 hashes without re-prefixing. -/
def MerkleTree.from_raw_hashes (H : Bytes → Bytes) (hashes : List Bytes) : Option MerkleTree :=
  if hashes.isEmpty then none
  else some { root_hash := build_root H hashes, leaves := hashes }

/-! ## Proof generation and verification -/

/-- Proof path side tag (merkle.py ProofDirection). -/
inductive ProofDirection where
  | L
  | R
deriving DecidableEq, Repr

/-- A single proof path element: sibling hash plus side. -/
structure ProofElement where
  hash : Bytes
  direction : ProofDirection
deriving DecidableEq, Repr

/-- merkle.py MerkleProof with all five stored fields. -/
structure MerkleProof where
  leaf_hash : Bytes
  leaf_index : Nat
  proof_path : List ProofElement
  root_hash : Bytes
  tree_size : Nat
deriving DecidableEq, Repr

/-- The sibling contributed at one level by get_proof's pairwise walk: the
walk visits pairs left to right; the node at the tracked index yields its
pair partner, and a promoted unpaired node yields nothing. -/
def level_proof_elem : List Bytes → Nat → List ProofElement
  | _ :: r :: _, 0 => [{ hash := r, direction := ProofDirection.R }]
  | l :: _ :: _, 1 => [{ hash := l, direction := ProofDirection.L }]
  | _ :: _ :: rest, n + 2 => level_proof_elem rest n
  | _, _ => []

/-- The level loop of MerkleTree.get_proof with explicit fuel (structural
recursion for kernel-reducible evaluation). -/
def proof_path_from_aux (H : Bytes → Bytes) : Nat → List Bytes → Nat → List ProofElement
  | 0, _, _ => []
  | fuel + 1, level, idx =>
    if level.length ≤ 1 then []
    else level_proof_elem level idx
      ++ proof_path_from_aux H fuel (build_level H level) (idx / 2)

/-- The level loop of MerkleTree.get_proof: collect the sibling at each
level; the tracked index becomes the parent's index, which the code sets to
len(next_level) at the pair, i.e. idx / 2. -/
def proof_path_from (H : Bytes → Bytes) (level : List Bytes) (idx : Nat) : List ProofElement :=
  proof_path_from_aux H level.length level idx

/-- MerkleTree.get_proof; the IndexError on an out-of-range index is
modelled as none. -/
def MerkleTree.get_proof (H : Bytes → Bytes) (t : MerkleTree) (leaf_index : Nat) :
    Option MerkleProof :=
  if leaf_index < t.leaves.length then
    some { leaf_hash := t.leaves.getD leaf_index []
           leaf_index := leaf_index
           proof_path := proof_path_from H t.leaves leaf_index
           root_hash := t.root_hash
           tree_size := t.leaves.length }
  else none

/-- The folding loop shared by verify_proof and compute_root_from_proof:
side L means the sibling is hashed on the left of the running value. -/
def compute_root_from_path (H : Bytes → Bytes) (leaf : Bytes) (path : List ProofElement) : Bytes :=
  path.foldl
    (fun current e =>
      match e.direction with
      | ProofDirection.L => compute_parent_hash H e.hash current
      | ProofDirection.R => compute_parent_hash H current e.hash)
    leaf

/-- merkle.py verify_proof: refold the path from the stored leaf hash and
compare with the stored root; leaf_index and tree_size are not read. -/
def verify_proof (H : Bytes → Bytes) (p : MerkleProof) : Bool :=
  compute_root_from_path H p.leaf_hash p.proof_path == p.root_hash

/-! ## Correctness of proof generation (claim C1 machinery) -/

theorem compute_root_from_path_append (H : Bytes → Bytes) (leaf : Bytes)
    (p q : List ProofElement) :
    compute_root_from_path H leaf (p ++ q)
      = compute_root_from_path H (compute_root_from_path H leaf p) q := by
  simp [compute_root_from_path, List.foldl_append]

theorem build_root_aux_irrel (H : Bytes → Bytes) :
    ∀ f1 f2 (level : List Bytes), level.length ≤ f1 + 1 → level.length ≤ f2 + 1 →
      build_root_aux H f1 level = build_root_aux H f2 level := by
  intro f1
  induction f1 with
  | zero =>
    intro f2 level h1 _
    match f2 with
    | 0 => rfl
    | g + 1 =>
      simp only [build_root_aux]
      rw [if_pos h1]
  | succ g ih =>
    intro f2 level h1 h2
    by_cases hl : level.length ≤ 1
    · match f2 with
      | 0 =>
        simp only [build_root_aux]
        rw [if_pos hl]
      | h + 1 =>
        simp only [build_root_aux]
        rw [if_pos hl, if_pos hl]
    · match f2 with
      | 0 => omega
      | h + 1 =>
        simp only [build_root_aux]
        rw [if_neg hl, if_neg hl]
        exact ih h (build_level H level)
          (by rw [length_build_level]; omega)
          (by rw [length_build_level]; omega)

theorem build_root_step (H : Bytes → Bytes) (level : List Bytes)
    (h : ¬ level.length ≤ 1) :
    build_root H level = build_root H (build_level H level) := by
  unfold build_root
  obtain ⟨m, hm⟩ : ∃ m, level.length = m + 1 := ⟨level.length - 1, by omega⟩
  rw [hm]
  simp only [build_root_aux]
  rw [if_neg (hm ▸ h)]
  exact build_root_aux_irrel H m (build_level H level).length (build_level H level)
    (by rw [length_build_level]; omega)
    (by omega)

theorem proof_path_from_aux_irrel (H : Bytes → Bytes) :
    ∀ f1 f2 (level : List Bytes) (idx : Nat),
      level.length ≤ f1 + 1 → level.length ≤ f2 + 1 →
      proof_path_from_aux H f1 level idx = proof_path_from_aux H f2 level idx := by
  intro f1
  induction f1 with
  | zero =>
    intro f2 level idx h1 _
    match f2 with
    | 0 => rfl
    | g + 1 =>
      simp only [proof_path_from_aux]
      rw [if_pos h1]
  | succ g ih =>
    intro f2 level idx h1 h2
    by_cases hl : level.length ≤ 1
    · match f2 with
      | 0 =>
        simp only [proof_path_from_aux]
        rw [if_pos hl]
      | h + 1 =>
        simp only [proof_path_from_aux]
        rw [if_pos hl, if_pos hl]
    · match f2 with
      | 0 => omega
      | h + 1 =>
        simp only [proof_path_from_aux]
        rw [if_neg hl, if_neg hl,
          ih h (build_level H level) (idx / 2)
            (by rw [length_build_level]; omega)
            (by rw [length_build_level]; omega)]

theorem proof_path_from_step (H : Bytes → Bytes) (level : List Bytes) (idx : Nat)
    (h : ¬ level.length ≤ 1) :
    proof_path_from H level idx
      = level_proof_elem level idx ++ proof_path_from H (build_level H level) (idx / 2) := by
  unfold proof_path_from
  obtain ⟨m, hm⟩ : ∃ m, level.length = m + 1 := ⟨level.length - 1, by omega⟩
  rw [hm]
  simp only [proof_path_from_aux]
  rw [if_neg (hm ▸ h)]
  rw [proof_path_from_aux_irrel H m (build_level H level).length (build_level H level)
    (idx / 2) (by rw [length_build_level]; omega) (by omega)]

theorem level_proof_elem_spec (H : Bytes → Bytes) :
    ∀ (level : List Bytes) (idx : Nat), idx < level.length →
      compute_root_from_path H (level.getD idx []) (level_proof_elem level idx)
        = (build_level H level).getD (idx / 2) []
  | _ :: _ :: _, 0, _ => by
      simp [level_proof_elem, build_level, compute_root_from_path]
  | _ :: _ :: _, 1, _ => by
      simp [level_proof_elem, build_level, compute_root_from_path]
  | l :: r :: rest, n + 2, h => by
      have ih := level_proof_elem_spec H rest n (by simp at h; omega)
      have hdiv : (n + 2) / 2 = n / 2 + 1 := by omega
      simpa [level_proof_elem, build_level, hdiv] using ih
  | [_], 0, _ => by
      simp [level_proof_elem, build_level, compute_root_from_path]
  | [], _, h => by simp at h
  | [_], _ + 1, h => by simp at h

theorem compute_root_proof_path (H : Bytes → Bytes) (level : List Bytes) (idx : Nat)
    (h : idx < level.length) :
    compute_root_from_path H (level.getD idx []) (proof_path_from H level idx)
      = build_root H level := by
  by_cases hlen : level.length ≤ 1
  · match level, h with
    | [a], h =>
        have : idx = 0 := by simp at h; omega
        subst this
        simp [proof_path_from, proof_path_from_aux, build_root, build_root_aux,
          compute_root_from_path]
  · have hidx2 : idx / 2 < (build_level H level).length := by
      rw [length_build_level]
      omega
    have ih := compute_root_proof_path H (build_level H level) (idx / 2) hidx2
    rw [proof_path_from_step H level idx hlen, compute_root_from_path_append,
      level_proof_elem_spec H level idx h, ih, build_root_step H level hlen]
termination_by level.length
decreasing_by
  simp only [length_build_level]
  omega

/-- C1. For every non-empty leaf sequence and in-range index, building the
tree with from_leaves, generating a proof with get_proof and checking it
with verify_proof yields true, for every hash function. -/
theorem spec_c1_prove_verify_roundtrip (H : Bytes → Bytes) (L : List Bytes) (i : Nat)
    (hne : L ≠ []) (hi : i < L.length) :
    ∃ t p, MerkleTree.from_leaves H L = some t
      ∧ MerkleTree.get_proof H t i = some p
      ∧ verify_proof H p = true := by
  have hne' : ¬ L.isEmpty := by simpa [List.isEmpty_iff] using hne
  have hlen : i < (L.map (compute_leaf_hash H)).length := by simpa using hi
  refine ⟨{ root_hash := build_root H (L.map (compute_leaf_hash H))
            leaves := L.map (compute_leaf_hash H) },
          { leaf_hash := (L.map (compute_leaf_hash H)).getD i []
            leaf_index := i
            proof_path := proof_path_from H (L.map (compute_leaf_hash H)) i
            root_hash := build_root H (L.map (compute_leaf_hash H))
            tree_size := (L.map (compute_leaf_hash H)).length },
          ?_, ?_, ?_⟩
  · unfold MerkleTree.from_leaves
    rw [if_neg hne']
  · unfold MerkleTree.get_proof
    rw [if_pos hlen]
  · simp only [verify_proof, beq_iff_eq]
    exact compute_root_proof_path H (L.map (compute_leaf_hash H)) i hlen

/-- Witness for C1 at a concrete hash function, three leaves and index 1. -/
theorem spec_c1_witness :
    ∃ t p, MerkleTree.from_leaves (fun b => 7 :: b) [[10], [20], [30]] = some t
      ∧ MerkleTree.get_proof (fun b => 7 :: b) t 1 = some p
      ∧ verify_proof (fun b => 7 :: b) p = true :=
  spec_c1_prove_verify_roundtrip (fun b => 7 :: b) [[10], [20], [30]] 1
    (by decide) (by decide)

/-! ## Claims C2, C3, C9 on the Merkle engine -/

/-- C2. For every non-empty leaf sequence, from_leaves and from_raw_hashes
on the mapped leaf hashes construct trees with the same root. -/
theorem spec_c2_construction_paths_agree (H : Bytes → Bytes) (L : List Bytes)
    (hne : L ≠ []) :
    ∃ t₁ t₂, MerkleTree.from_leaves H L = some t₁
      ∧ MerkleTree.from_raw_hashes H (L.map (compute_leaf_hash H)) = some t₂
      ∧ t₁.root_hash = t₂.root_hash := by
  have hne' : ¬ L.isEmpty := by simpa [List.isEmpty_iff] using hne
  have hne'' : ¬ (L.map (compute_leaf_hash H)).isEmpty := by
    simpa [List.isEmpty_iff] using hne
  refine ⟨{ root_hash := build_root H (L.map (compute_leaf_hash H))
            leaves := L.map (compute_leaf_hash H) },
          { root_hash := build_root H (L.map (compute_leaf_hash H))
            leaves := L.map (compute_leaf_hash H) }, ?_, ?_, rfl⟩
  · unfold MerkleTree.from_leaves
    rw [if_neg hne']
  · unfold MerkleTree.from_raw_hashes
    rw [if_neg hne'']

/-- Witness for C2 at a concrete hash function and two leaves. -/
theorem spec_c2_witness :
    ∃ t₁ t₂, MerkleTree.from_leaves (fun b => 9 :: b) [[1], [2]] = some t₁
      ∧ MerkleTree.from_raw_hashes (fun b => 9 :: b)
          ([[1], [2]].map (compute_leaf_hash (fun b => 9 :: b))) = some t₂
      ∧ t₁.root_hash = t₂.root_hash :=
  spec_c2_construction_paths_agree (fun b => 9 :: b) [[1], [2]] (by decide)

theorem build_level_odd_promotes (H : Bytes → Bytes) :
    ∀ l : List Bytes, l.length % 2 = 1 →
      build_level H l = build_level H l.dropLast ++ [l.getLastD []]
  | [], h => by simp at h
  | [a], _ => by simp [build_level]
  | a :: b :: rest, h => by
      have hrest : rest.length % 2 = 1 := by
        simp only [List.length_cons] at h
        omega
      obtain ⟨c, rest', rfl⟩ : ∃ c rest', rest = c :: rest' := by
        cases rest with
        | nil => simp at hrest
        | cons c rest' => exact ⟨c, rest', rfl⟩
      have ih := build_level_odd_promotes H (c :: rest') hrest
      simp [build_level, ih, List.getLast?_cons_cons]

theorem build_root_single (H : Bytes → Bytes) (x : Bytes) : build_root H [x] = x := by
  simp [build_root, build_root_aux]

theorem build_root_pair (H : Bytes → Bytes) (x y : Bytes) :
    build_root H [x, y] = compute_parent_hash H x y := by
  rw [build_root_step H _ (by simp)]
  show build_root H [compute_parent_hash H x y] = _
  exact build_root_single H _

theorem build_root_triple (H : Bytes → Bytes) (x y z : Bytes) :
    build_root H [x, y, z]
      = compute_parent_hash H (compute_parent_hash H x y) z := by
  rw [build_root_step H _ (by simp)]
  show build_root H [compute_parent_hash H x y, z] = _
  exact build_root_pair H _ _

/-- C3. Odd-level reduction promotes the unpaired rightmost node to the next
level unchanged (never duplicated), and on the three leaves a, b, c the root
is parent(parent(leaf a, leaf b), leaf c). -/
theorem spec_c3_odd_promotion (H : Bytes → Bytes) :
    (∀ l : List Bytes, l.length % 2 = 1 →
        build_level H l = build_level H l.dropLast ++ [l.getLastD []])
    ∧ ∃ t, MerkleTree.from_leaves H [[0x61], [0x62], [0x63]] = some t
        ∧ t.root_hash
            = compute_parent_hash H
                (compute_parent_hash H
                  (compute_leaf_hash H [0x61]) (compute_leaf_hash H [0x62]))
                (compute_leaf_hash H [0x63]) := by
  refine ⟨build_level_odd_promotes H, ?_⟩
  refine ⟨{ root_hash := build_root H ([[0x61], [0x62], [0x63]].map (compute_leaf_hash H))
            leaves := [[0x61], [0x62], [0x63]].map (compute_leaf_hash H) }, ?_, ?_⟩
  · unfold MerkleTree.from_leaves
    rw [if_neg (by simp)]
  · show build_root H [compute_leaf_hash H [0x61], compute_leaf_hash H [0x62],
        compute_leaf_hash H [0x63]] = _
    exact build_root_triple H _ _ _

/-- Witness for C3 at a concrete hash function and a concrete odd level. -/
theorem spec_c3_witness :
    build_level (fun b => 5 :: b) [[1], [2], [3]]
        = build_level (fun b => 5 :: b) ([[1], [2], [3]] : List Bytes).dropLast
            ++ [([[1], [2], [3]] : List Bytes).getLastD []]
      ∧ ∃ t, MerkleTree.from_leaves (fun b => 5 :: b) [[0x61], [0x62], [0x63]] = some t
        ∧ t.root_hash
            = compute_parent_hash (fun b => 5 :: b)
                (compute_parent_hash (fun b => 5 :: b)
                  (compute_leaf_hash (fun b => 5 :: b) [0x61])
                  (compute_leaf_hash (fun b => 5 :: b) [0x62]))
                (compute_leaf_hash (fun b => 5 :: b) [0x63]) :=
  ⟨(spec_c3_odd_promotion (fun b => 5 :: b)).1 [[1], [2], [3]] (by decide),
   (spec_c3_odd_promotion (fun b => 5 :: b)).2⟩

/-- C9. verify_proof reads only the leaf_hash, proof_path and root_hash
fields: two proofs agreeing on those three fields verify identically no
matter how their leaf_index and tree_size differ. -/
theorem spec_c9_verify_ignores_index_and_size (H : Bytes → Bytes) (p q : MerkleProof)
    (h1 : p.leaf_hash = q.leaf_hash) (h2 : p.proof_path = q.proof_path)
    (h3 : p.root_hash = q.root_hash) :
    verify_proof H p = verify_proof H q := by
  simp [verify_proof, h1, h2, h3]

/-- Witness for C9: two proofs differing in leaf_index and tree_size but
agreeing on the hashed fields verify the same. -/
theorem spec_c9_witness :
    verify_proof (fun b => 3 :: b)
        { leaf_hash := [4], leaf_index := 0,
          proof_path := [{ hash := [5], direction := ProofDirection.R }],
          root_hash := [6], tree_size := 2 }
      = verify_proof (fun b => 3 :: b)
        { leaf_hash := [4], leaf_index := 99,
          proof_path := [{ hash := [5], direction := ProofDirection.R }],
          root_hash := [6], tree_size := 1000 } :=
  spec_c9_verify_ignores_index_and_size (fun b => 3 :: b) _ _ rfl rfl rfl

/-! ## compute_leaf_hash on string input (claim C10) -/

/-- The character set of the hex test in compute_leaf_hash
(each c in "0123456789abcdefABCDEF"). -/
def hexCharSet : List Char :=
  ['0', '1', '2', '3', '4'] ++ ['5', '6', '7', '8', '9']
    ++ ['a', 'b', 'c', 'd', 'e', 'f'] ++ ['A', 'B', 'C', 'D', 'E', 'F']

/-- Value of one hex digit; none on a non-hex character. -/
def hexDigitVal (c : Char) : Option Nat :=
  if '0' ≤ c ∧ c ≤ '9' then some (c.toNat - 48)
  else if 'a' ≤ c ∧ c ≤ 'f' then some (c.toNat - 87)
  else if 'A' ≤ c ∧ c ≤ 'F' then some (c.toNat - 55)
  else none

/-- Python bytes.fromhex on a whitespace-free string: consume digit pairs;
an odd-length tail or a non-hex digit raises ValueError, modelled as none. -/
def bytes_fromhex : List Char → Option Bytes
  | [] => some []
  | [_] => none
  | c1 :: c2 :: rest =>
    match hexDigitVal c1, hexDigitVal c2, bytes_fromhex rest with
    | some hi, some lo, some bs => some ((16 * hi + lo) :: bs)
    | _, _, _ => none

/-- UTF-8 encoding of one code point (str.encode). -/
def utf8EncodeChar (c : Char) : Bytes :=
  if c.toNat < 0x80 then [c.toNat]
  else if c.toNat < 0x800 then [0xC0 + c.toNat / 64, 0x80 + c.toNat % 64]
  else if c.toNat < 0x10000 then
    [0xE0 + c.toNat / 4096, 0x80 + c.toNat / 64 % 64, 0x80 + c.toNat % 64]
  else
    [0xF0 + c.toNat / 262144, 0x80 + c.toNat / 4096 % 64,
     0x80 + c.toNat / 64 % 64, 0x80 + c.toNat % 64]

/-- UTF-8 encoding of a string given as its code points. -/
def utf8Encode (s : List Char) : Bytes :=
  (s.map utf8EncodeChar).flatten

/-- compute_leaf_hash on a str argument: if every character is a hex digit
the string is decoded with bytes.fromhex (none models the ValueError on an
odd length), otherwise the UTF-8 encoding is hashed. -/
def compute_leaf_hash_str (H : Bytes → Bytes) (s : List Char) : Option Bytes :=
  if s.all (fun c => hexCharSet.contains c) then
    (bytes_fromhex s).map (compute_leaf_hash H)
  else some (compute_leaf_hash H (utf8Encode s))

theorem hexDigitVal_isSome_of_mem (c : Char) (h : hexCharSet.contains c = true) :
    (hexDigitVal c).isSome := by
  have hmem : c ∈ hexCharSet := by simpa using h
  simp only [hexCharSet, List.mem_append, List.mem_cons, List.not_mem_nil,
    or_false] at hmem
  rcases hmem with (((rfl | rfl | rfl | rfl | rfl) | (rfl | rfl | rfl | rfl | rfl))
    | (rfl | rfl | rfl | rfl | rfl | rfl)) | (rfl | rfl | rfl | rfl | rfl | rfl)
    <;> decide

theorem bytes_fromhex_even :
    ∀ s : List Char, s.all (fun c => hexCharSet.contains c) = true →
      s.length % 2 = 0 → ∃ bs, bytes_fromhex s = some bs
  | [], _, _ => ⟨[], rfl⟩
  | [_], _, h2 => by simp at h2
  | c1 :: c2 :: rest, h1, h2 => by
      simp only [List.all_cons, Bool.and_eq_true] at h1
      obtain ⟨bs, hbs⟩ := bytes_fromhex_even rest h1.2.2
        (by simp only [List.length_cons] at h2; omega)
      obtain ⟨hi, h1'⟩ := Option.isSome_iff_exists.mp (hexDigitVal_isSome_of_mem c1 h1.1)
      obtain ⟨lo, h2'⟩ := Option.isSome_iff_exists.mp (hexDigitVal_isSome_of_mem c2 h1.2.1)
      exact ⟨(16 * hi + lo) :: bs, by simp [bytes_fromhex, h1', h2', hbs]⟩

theorem bytes_fromhex_odd :
    ∀ s : List Char, s.length % 2 = 1 → bytes_fromhex s = none
  | [], h => by simp at h
  | [_], _ => rfl
  | c1 :: c2 :: rest, h => by
      have : rest.length % 2 = 1 := by simp only [List.length_cons] at h; omega
      have ih := bytes_fromhex_odd rest this
      unfold bytes_fromhex
      rw [ih]
      rcases hexDigitVal c1 with _ | hi <;> rcases hexDigitVal c2 with _ | lo <;> rfl

/-- C10. compute_leaf_hash on a string branches on content: an all-hex
string is decoded as hex (for even length the leaf hash of the decoded
bytes; odd length raises), and a string with a non-hex character is hashed
over its UTF-8 encoding. -/
theorem spec_c10_leaf_hash_string_branch (H : Bytes → Bytes) (s : List Char) :
    (s.all (fun c => hexCharSet.contains c) = true → s.length % 2 = 0 →
        ∃ bs, bytes_fromhex s = some bs
          ∧ compute_leaf_hash_str H s = some (compute_leaf_hash H bs))
    ∧ (s.all (fun c => hexCharSet.contains c) = true → s.length % 2 = 1 →
        compute_leaf_hash_str H s = none)
    ∧ (s.all (fun c => hexCharSet.contains c) = false →
        compute_leaf_hash_str H s = some (compute_leaf_hash H (utf8Encode s))) := by
  refine ⟨?_, ?_, ?_⟩
  · intro hall heven
    obtain ⟨bs, hbs⟩ := bytes_fromhex_even s hall heven
    refine ⟨bs, hbs, ?_⟩
    unfold compute_leaf_hash_str
    rw [if_pos hall, hbs]
    rfl
  · intro hall hodd
    unfold compute_leaf_hash_str
    rw [if_pos hall, bytes_fromhex_odd s hodd]
    rfl
  · intro hnot
    unfold compute_leaf_hash_str
    rw [if_neg (by rw [hnot]; decide)]

/-- Witness for C10: the even hex string "ab", the odd hex string "a" and
the non-hex string "z!". -/
theorem spec_c10_witness :
    (∃ bs, bytes_fromhex ['a', 'b'] = some bs
        ∧ compute_leaf_hash_str (fun b => 2 :: b) ['a', 'b']
            = some (compute_leaf_hash (fun b => 2 :: b) bs))
    ∧ compute_leaf_hash_str (fun b => 2 :: b) ['a'] = none
    ∧ compute_leaf_hash_str (fun b => 2 :: b) ['z', '!']
        = some (compute_leaf_hash (fun b => 2 :: b) (utf8Encode ['z', '!'])) :=
  ⟨(spec_c10_leaf_hash_string_branch (fun b => 2 :: b) ['a', 'b']).1
      (by decide) (by decide),
   (spec_c10_leaf_hash_string_branch (fun b => 2 :: b) ['a']).2.1
      (by decide) (by decide),
   (spec_c10_leaf_hash_string_branch (fun b => 2 :: b) ['z', '!']).2.2 (by decide)⟩

/-! ## IOTAClient._wait_for_confirmation (claim C5) -/

/-- Block metadata as read by the confirmation loop: just the
ledgerInclusionState field of the metadata response. -/
structure PollMeta where
  ledger_inclusion_state : Option String
deriving DecidableEq, Repr

/-- One loop iteration's get_block_metadata outcome: a metadata response, or
an IOTAClientError raised by the GET. -/
inductive PollOutcome where
  | metadata (m : PollMeta)
  | clientError
deriving DecidableEq, Repr

/-- IOTAClient._wait_for_confirmation over the sequence of poll outcomes the
node produces, one list entry per loop iteration; the list running out
models the elapsed time reaching the timeout, at which point the loop top
raises the timeout ConfirmationError (outside the try-block, so it
propagates). Inside the loop body the try-block may raise: the metadata
GET's IOTAClientError, or the ConfirmationError raised on a conflicting
inclusion state. Because ConfirmationError is declared as a subclass of
IOTAClientError, the except IOTAClientError handler catches both, sleeps
for the poll interval, and continues polling. -/
def wait_for_confirmation : List PollOutcome → Except String PollMeta
  | [] => Except.error "Block confirmation timeout"
  | p :: rest =>
    let tryBody : Except String (Option PollMeta) :=
      match p with
      | PollOutcome.clientError => Except.error "Failed to get block metadata"
      | PollOutcome.metadata m =>
        if m.ledger_inclusion_state = some "included" then Except.ok (some m)
        else if m.ledger_inclusion_state = some "conflicting" then
          Except.error "Block has conflicting state"
        else Except.ok none
    match tryBody with
    | Except.ok (some m) => Except.ok m
    | Except.ok none => wait_for_confirmation rest
    | Except.error _ => wait_for_confirmation rest

/-- C5 (code bug). A poll reporting a conflicting inclusion state does not
fail the call: the conflicting ConfirmationError is swallowed by the
handler for its own superclass and polling continues, so the call can only
end in inclusion or in the confirmation timeout; at the concrete failing
input it returns the timeout error instead of the conflicting error. -/
theorem spec_c5_conflicting_poll_swallowed :
    (∀ rest, wait_for_confirmation
        (PollOutcome.metadata { ledger_inclusion_state := some "conflicting" } :: rest)
        = wait_for_confirmation rest)
    ∧ wait_for_confirmation
        [PollOutcome.metadata { ledger_inclusion_state := some "conflicting" }]
        = Except.error "Block confirmation timeout"
    ∧ wait_for_confirmation
        [PollOutcome.metadata { ledger_inclusion_state := some "conflicting" }]
        ≠ Except.error "Block has conflicting state" := by
  refine ⟨fun rest => rfl, rfl, ?_⟩
  intro hcon
  rw [show wait_for_confirmation
      [PollOutcome.metadata { ledger_inclusion_state := some "conflicting" }]
      = Except.error "Block confirmation timeout" from rfl] at hcon
  simp only [Except.error.injEq] at hcon
  exact absurd hcon (by decide)

/-! ## AnchorMessage.to_bytes (claim C7) -/

/-- JSON token whitespace: space, tab, line feed, carriage return. -/
def isJsonWs (c : Char) : Prop :=
  c.toNat = 32 ∨ c.toNat = 9 ∨ c.toNat = 10 ∨ c.toNat = 13

instance (c : Char) : Decidable (isJsonWs c) := by
  unfold isJsonWs
  infer_instance

/-- Digit character for a value below 16 (decimal digits and lowercase hex). -/
def hexDigitChar : Nat → Char
  | 0 => '0'
  | 1 => '1'
  | 2 => '2'
  | 3 => '3'
  | 4 => '4'
  | 5 => '5'
  | 6 => '6'
  | 7 => '7'
  | 8 => '8'
  | 9 => '9'
  | 10 => 'a'
  | 11 => 'b'
  | 12 => 'c'
  | 13 => 'd'
  | 14 => 'e'
  | 15 => 'f'
  | _ => '0'

/-- Four lowercase hex digits of a code unit, for json \uXXXX escapes. -/
def hex4 (n : Nat) : List Char :=
  [hexDigitChar (n / 4096 % 16), hexDigitChar (n / 256 % 16),
   hexDigitChar (n / 16 % 16), hexDigitChar (n % 16)]

/-- json.dumps escaping of one character under the default ensure_ascii:
short escapes for quote, backslash and the common control characters,
\uXXXX for other control characters and all non-ASCII code points, with a
surrogate pair for supplementary code points. -/
def jsonEscapeChar (c : Char) : List Char :=
  if c = '"' then ['\\', '"']
  else if c = '\\' then ['\\', '\\']
  else if c = '\n' then ['\\', 'n']
  else if c = '\t' then ['\\', 't']
  else if c = '\r' then ['\\', 'r']
  else if c.toNat = 8 then ['\\', 'b']
  else if c.toNat = 12 then ['\\', 'f']
  else if c.toNat < 0x20 then '\\' :: 'u' :: hex4 c.toNat
  else if c.toNat < 0x7F then [c]
  else if c.toNat < 0x10000 then '\\' :: 'u' :: hex4 c.toNat
  else
    ('\\' :: 'u' :: hex4 (0xD800 + (c.toNat - 0x10000) / 1024))
      ++ ('\\' :: 'u' :: hex4 (0xDC00 + (c.toNat - 0x10000) % 1024))

/-- A JSON string literal: quote, escaped characters, quote. -/
def jsonStr (s : String) : List Char :=
  '"' :: (s.toList.map jsonEscapeChar).flatten ++ ['"']

/-- Decimal digit characters of a natural number, with enough fuel for all
its digits (structural recursion so that evaluation is kernel-reducible). -/
def natToCharsAux : Nat → Nat → List Char
  | 0, _ => []
  | fuel + 1, n =>
    if n < 10 then [hexDigitChar n]
    else natToCharsAux fuel (n / 10) ++ [hexDigitChar (n % 10)]

/-- Decimal digit characters of a natural number (json.dumps int form). -/
def natToChars (n : Nat) : List Char :=
  natToCharsAux (n + 1) n

/-- Decimal form of an integer. -/
def intToChars (i : Int) : List Char :=
  if i < 0 then '-' :: natToChars (-i).toNat else natToChars i.toNat

/-- Join serialized members with the item separator "," of
separators=(",", ":"). -/
def joinComma : List (List Char) → List Char
  | [] => []
  | [x] => x
  | x :: y :: xs => x ++ ',' :: joinComma (y :: xs)

/-- The left and right brace characters. -/
def lbraceChar : Char := Char.ofNat 123

def rbraceChar : Char := Char.ofNat 125

/-- A scalar value inside the metadata dict. -/
inductive JPrim where
  | s (v : String)
  | i (v : Int)
deriving DecidableEq, Repr

/-- A value of the top-level anchor message dict: a string, an int, or the
flat metadata object. -/
inductive JVal where
  | s (v : String)
  | i (v : Int)
  | o (fields : List (String × JPrim))
deriving DecidableEq, Repr

def dumpJPrim : JPrim → List Char
  | JPrim.s v => jsonStr v
  | JPrim.i v => intToChars v

/-- json.dumps of the flat metadata object with compact separators. -/
def dumpMetaObj (fields : List (String × JPrim)) : List Char :=
  lbraceChar :: joinComma (fields.map (fun kv => jsonStr kv.1 ++ ':' :: dumpJPrim kv.2))
    ++ [rbraceChar]

def dumpJVal : JVal → List Char
  | JVal.s v => jsonStr v
  | JVal.i v => intToChars v
  | JVal.o fields => dumpMetaObj fields

/-- json.dumps(data, separators=(",", ":")) for a dict given as its
insertion-ordered key/value pairs. -/
def json_dumps_compact (pairs : List (String × JVal)) : List Char :=
  lbraceChar :: joinComma (pairs.map (fun kv => jsonStr kv.1 ++ ':' :: dumpJVal kv.2))
    ++ [rbraceChar]

/-- iota_client.py AnchorMessage, with the fields to_bytes reads. -/
structure AnchorMessage where
  digest : String
  digest_algorithm : String := "sha256"
  anchor_type : String := "merkle_root"
  timestamp : Int := 0
  event_count : Int := 0
  start_time : Int := 0
  end_time : Int := 0
  version : String := "1.0"
  metadata : List (String × JPrim) := []
deriving DecidableEq, Repr

/-- The dict literal built inside AnchorMessage.to_bytes, in its insertion
order, with meta appended last when the metadata dict is truthy. -/
def AnchorMessage.data_pairs (m : AnchorMessage) : List (String × JVal) :=
  [("digest", JVal.s m.digest),
   ("algorithm", JVal.s m.digest_algorithm),
   ("type", JVal.s m.anchor_type),
   ("ts", JVal.i m.timestamp),
   ("count", JVal.i m.event_count),
   ("start", JVal.i m.start_time),
   ("end", JVal.i m.end_time),
   ("v", JVal.s m.version)]
    ++ (if m.metadata.isEmpty then [] else [("meta", JVal.o m.metadata)])

/-- AnchorMessage.to_bytes: json.dumps with compact separators over the
insertion-ordered dict, UTF-8 encoded. -/
def AnchorMessage.to_bytes (m : AnchorMessage) : Bytes :=
  utf8Encode (json_dumps_compact m.data_pairs)

/-- Lexicographic code-point comparison of two strings (the order Python
sorted() uses on str keys). -/
def charListLt : List Char → List Char → Bool
  | [], [] => false
  | [], _ :: _ => true
  | _ :: _, [] => false
  | c1 :: t1, c2 :: t2 =>
    if c1.toNat < c2.toNat then true
    else if c2.toNat < c1.toNat then false
    else charListLt t1 t2

/-- Insert a pair into a key-sorted pair list (code-point order on keys). -/
def insertPairSorted (kv : String × JVal) : List (String × JVal) → List (String × JVal)
  | [] => [kv]
  | hd :: tl =>
    if charListLt kv.1.toList hd.1.toList then kv :: hd :: tl
    else hd :: insertPairSorted kv tl

/-- Sort pairs by key (insertion sort). -/
def sortPairsByKey : List (String × JVal) → List (String × JVal)
  | [] => []
  | kv :: rest => insertPairSorted kv (sortPairsByKey rest)

/-- The serialization the spec describes for the anchor message: canonical
JSON with the object keys in sorted order, no whitespace, UTF-8. -/
def canonical_sorted_bytes_spec (m : AnchorMessage) : Bytes :=
  utf8Encode (json_dumps_compact (sortPairsByKey m.data_pairs))


/-! ## Claim C7 lemmas and theorems -/

theorem hexDigitChar_not_ws (n : Nat) : ¬ isJsonWs (hexDigitChar n) := by
  unfold hexDigitChar
  split <;> decide

theorem hex4_not_ws (n : Nat) : ∀ c ∈ hex4 n, ¬ isJsonWs c := by
  intro c hc
  simp only [hex4, List.mem_cons, List.not_mem_nil, or_false] at hc
  rcases hc with rfl | rfl | rfl | rfl <;> exact hexDigitChar_not_ws _

set_option maxHeartbeats 1000000 in
theorem jsonEscapeChar_not_ws (c : Char) (hc : c.toNat ≠ 32) :
    ∀ x ∈ jsonEscapeChar c, ¬ isJsonWs x := by
  intro x hx
  unfold jsonEscapeChar at hx
  split_ifs at hx with h1 h2 h3 h4 h5 h6 h7 h8 h9 h10
  all_goals
    simp only [List.mem_cons, List.mem_append, List.not_mem_nil, or_false] at hx
  · rcases hx with rfl | rfl <;> decide
  · rcases hx with rfl | rfl <;> decide
  · rcases hx with rfl | rfl <;> decide
  · rcases hx with rfl | rfl <;> decide
  · rcases hx with rfl | rfl <;> decide
  · rcases hx with rfl | rfl <;> decide
  · rcases hx with rfl | rfl <;> decide
  · rcases hx with rfl | rfl | hx
    · decide
    · decide
    · exact hex4_not_ws _ x hx
  · subst hx
    unfold isJsonWs
    omega
  · rcases hx with rfl | rfl | hx
    · decide
    · decide
    · exact hex4_not_ws _ x hx
  · rcases hx with (rfl | rfl | hx) | (rfl | rfl | hx)
    · decide
    · decide
    · exact hex4_not_ws _ x hx
    · decide
    · decide
    · exact hex4_not_ws _ x hx

theorem natToCharsAux_not_ws :
    ∀ (fuel n : Nat), ∀ x ∈ natToCharsAux fuel n, ¬ isJsonWs x
  | 0, _ => by intro x hx; simp [natToCharsAux] at hx
  | fuel + 1, n => by
    intro x hx
    unfold natToCharsAux at hx
    split_ifs at hx
    · simp only [List.mem_singleton] at hx
      subst hx
      exact hexDigitChar_not_ws _
    · simp only [List.mem_append, List.mem_singleton] at hx
      rcases hx with hx | rfl
      · exact natToCharsAux_not_ws fuel (n / 10) x hx
      · exact hexDigitChar_not_ws _

theorem natToChars_not_ws (n : Nat) : ∀ x ∈ natToChars n, ¬ isJsonWs x :=
  natToCharsAux_not_ws (n + 1) n

theorem intToChars_not_ws (i : Int) : ∀ x ∈ intToChars i, ¬ isJsonWs x := by
  intro x hx
  unfold intToChars at hx
  split_ifs at hx
  · simp only [List.mem_cons] at hx
    rcases hx with rfl | hx
    · decide
    · exact natToChars_not_ws _ x hx
  · exact natToChars_not_ws _ x hx

theorem jsonStr_not_ws (s : String) (hs : ∀ c ∈ s.toList, c.toNat ≠ 32) :
    ∀ x ∈ jsonStr s, ¬ isJsonWs x := by
  intro x hx
  simp only [jsonStr, List.mem_append, List.mem_cons, List.mem_singleton, List.not_mem_nil, or_false] at hx
  rcases hx with (rfl | hx) | rfl
  · decide
  · rw [List.mem_flatten] at hx
    obtain ⟨l, hl, hxl⟩ := hx
    rw [List.mem_map] at hl
    obtain ⟨c, hc, rfl⟩ := hl
    exact jsonEscapeChar_not_ws c (hs c hc) x hxl
  · decide

theorem joinComma_not_ws (ls : List (List Char))
    (h : ∀ l ∈ ls, ∀ x ∈ l, ¬ isJsonWs x) :
    ∀ x ∈ joinComma ls, ¬ isJsonWs x := by
  match ls with
  | [] => intro x hx; simp [joinComma] at hx
  | [l] =>
    intro x hx
    exact h l (by simp) x (by simpa [joinComma] using hx)
  | l :: l' :: rest =>
    intro x hx
    simp only [joinComma, List.mem_append, List.mem_cons] at hx
    rcases hx with hx | rfl | hx
    · exact h l (by simp) x hx
    · decide
    · exact joinComma_not_ws (l' :: rest)
        (fun a ha => h a (List.mem_cons_of_mem _ ha))
        x (by simpa [joinComma] using hx)

theorem dumpJPrim_not_ws (v : JPrim)
    (h : ∀ s, v = JPrim.s s → ∀ c ∈ s.toList, c.toNat ≠ 32) :
    ∀ x ∈ dumpJPrim v, ¬ isJsonWs x := by
  match v with
  | JPrim.s s => exact jsonStr_not_ws s (h s rfl)
  | JPrim.i i => exact intToChars_not_ws i

theorem dumpMetaObj_not_ws (fields : List (String × JPrim))
    (h : ∀ kv ∈ fields, (∀ c ∈ kv.1.toList, c.toNat ≠ 32)
          ∧ ∀ s, kv.2 = JPrim.s s → ∀ c ∈ s.toList, c.toNat ≠ 32) :
    ∀ x ∈ dumpMetaObj fields, ¬ isJsonWs x := by
  intro x hx
  simp only [dumpMetaObj, List.mem_append, List.mem_cons, List.mem_singleton, List.not_mem_nil, or_false] at hx
  rcases hx with (rfl | hx) | rfl
  · decide
  · refine joinComma_not_ws _ ?_ x hx
    intro l hl
    rw [List.mem_map] at hl
    obtain ⟨kv, hkv, rfl⟩ := hl
    intro y hy
    simp only [List.mem_append, List.mem_cons] at hy
    rcases hy with hy | rfl | hy
    · exact jsonStr_not_ws _ (h kv hkv).1 y hy
    · decide
    · exact dumpJPrim_not_ws _ (h kv hkv).2 y hy
  · decide

theorem dumpJVal_not_ws (v : JVal)
    (hstr : ∀ s, v = JVal.s s → ∀ c ∈ s.toList, c.toNat ≠ 32)
    (hobj : ∀ fs, v = JVal.o fs → ∀ kv ∈ fs, (∀ c ∈ kv.1.toList, c.toNat ≠ 32)
          ∧ ∀ s, kv.2 = JPrim.s s → ∀ c ∈ s.toList, c.toNat ≠ 32) :
    ∀ x ∈ dumpJVal v, ¬ isJsonWs x := by
  match v with
  | JVal.s s => exact jsonStr_not_ws s (hstr s rfl)
  | JVal.i i => exact intToChars_not_ws i
  | JVal.o fs => exact dumpMetaObj_not_ws fs (hobj fs rfl)

theorem json_dumps_compact_not_ws (pairs : List (String × JVal))
    (h : ∀ kv ∈ pairs, (∀ c ∈ kv.1.toList, c.toNat ≠ 32)
          ∧ (∀ s, kv.2 = JVal.s s → ∀ c ∈ s.toList, c.toNat ≠ 32)
          ∧ (∀ fs, kv.2 = JVal.o fs → ∀ kv' ∈ fs, (∀ c ∈ kv'.1.toList, c.toNat ≠ 32)
                ∧ ∀ s, kv'.2 = JPrim.s s → ∀ c ∈ s.toList, c.toNat ≠ 32)) :
    ∀ x ∈ json_dumps_compact pairs, ¬ isJsonWs x := by
  intro x hx
  simp only [json_dumps_compact, List.mem_append, List.mem_cons, List.mem_singleton, List.not_mem_nil, or_false] at hx
  rcases hx with (rfl | hx) | rfl
  · decide
  · refine joinComma_not_ws _ ?_ x hx
    intro l hl
    rw [List.mem_map] at hl
    obtain ⟨kv, hkv, rfl⟩ := hl
    intro y hy
    simp only [List.mem_append, List.mem_cons] at hy
    rcases hy with hy | rfl | hy
    · exact jsonStr_not_ws _ (h kv hkv).1 y hy
    · decide
    · exact dumpJVal_not_ws _ (h kv hkv).2.1 (h kv hkv).2.2 y hy
  · decide

theorem utf8EncodeChar_not_ws (c : Char) (hc : ¬ isJsonWs c) :
    ∀ b ∈ utf8EncodeChar c, b ≠ 32 ∧ b ≠ 9 ∧ b ≠ 10 ∧ b ≠ 13 := by
  intro b hb
  unfold isJsonWs at hc
  unfold utf8EncodeChar at hb
  split_ifs at hb <;>
    simp only [List.mem_cons, List.not_mem_nil, or_false] at hb
  · subst hb; omega
  · rcases hb with rfl | rfl <;> omega
  · rcases hb with rfl | rfl | rfl <;> omega
  · rcases hb with rfl | rfl | rfl | rfl <;> omega

theorem utf8Encode_not_ws (l : List Char) (h : ∀ c ∈ l, ¬ isJsonWs c) :
    ∀ b ∈ utf8Encode l, b ≠ 32 ∧ b ≠ 9 ∧ b ≠ 10 ∧ b ≠ 13 := by
  intro b hb
  rw [utf8Encode, List.mem_flatten] at hb
  obtain ⟨bs, hbs, hbbs⟩ := hb
  rw [List.mem_map] at hbs
  obtain ⟨c, hcl, rfl⟩ := hbs
  exact utf8EncodeChar_not_ws c (h c hcl) b hbbs

theorem pair_ob_str (k v : String) (hk : ∀ c ∈ k.toList, c.toNat ≠ 32)
    (hv : ∀ c ∈ v.toList, c.toNat ≠ 32) :
    (∀ c ∈ k.toList, c.toNat ≠ 32)
      ∧ (∀ s, JVal.s v = JVal.s s → ∀ c ∈ s.toList, c.toNat ≠ 32)
      ∧ (∀ fs, JVal.s v = JVal.o fs → ∀ kv' ∈ fs, (∀ c ∈ kv'.1.toList, c.toNat ≠ 32)
            ∧ ∀ s, kv'.2 = JPrim.s s → ∀ c ∈ s.toList, c.toNat ≠ 32) :=
  ⟨hk, fun _ hs => (by cases hs; exact hv), fun _ hfs => (by cases hfs)⟩

theorem pair_ob_int (k : String) (i : Int) (hk : ∀ c ∈ k.toList, c.toNat ≠ 32) :
    (∀ c ∈ k.toList, c.toNat ≠ 32)
      ∧ (∀ s, JVal.i i = JVal.s s → ∀ c ∈ s.toList, c.toNat ≠ 32)
      ∧ (∀ fs, JVal.i i = JVal.o fs → ∀ kv' ∈ fs, (∀ c ∈ kv'.1.toList, c.toNat ≠ 32)
            ∧ ∀ s, kv'.2 = JPrim.s s → ∀ c ∈ s.toList, c.toNat ≠ 32) :=
  ⟨hk, fun _ hs => (by cases hs), fun _ hfs => (by cases hfs)⟩

theorem pair_ob_obj (k : String) (fields : List (String × JPrim))
    (hk : ∀ c ∈ k.toList, c.toNat ≠ 32)
    (hf : ∀ kv ∈ fields, (∀ c ∈ kv.1.toList, c.toNat ≠ 32)
          ∧ ∀ s, kv.2 = JPrim.s s → ∀ c ∈ s.toList, c.toNat ≠ 32) :
    (∀ c ∈ k.toList, c.toNat ≠ 32)
      ∧ (∀ s, JVal.o fields = JVal.s s → ∀ c ∈ s.toList, c.toNat ≠ 32)
      ∧ (∀ fs, JVal.o fields = JVal.o fs → ∀ kv' ∈ fs, (∀ c ∈ kv'.1.toList, c.toNat ≠ 32)
            ∧ ∀ s, kv'.2 = JPrim.s s → ∀ c ∈ s.toList, c.toNat ≠ 32) :=
  ⟨hk, fun _ hs => (by cases hs), fun _ hfs => (by cases hfs; exact hf)⟩

/-- C7 counterexample. At the concrete message with digest "aa" and the
default remaining fields, to_bytes does not equal the canonical
sorted-key serialization the claim describes: the dict keys are emitted in
insertion order (digest first), not sorted order (algorithm first). -/
theorem spec_c7_counterexample :
    AnchorMessage.to_bytes { digest := "aa" }
      ≠ canonical_sorted_bytes_spec { digest := "aa" } := by
  decide

/-- C7 (amended). to_bytes produces compact UTF-8 JSON: the object keys are
emitted in the fixed insertion order digest, algorithm, type, ts, count,
start, end, v, with meta appended last exactly when metadata is non-empty
(not in sorted order), and when the string fields contain no space
character the serialized bytes contain no whitespace byte at all (space,
tab, line feed, carriage return). -/
theorem spec_c7_amended_compact_insertion_order (m : AnchorMessage)
    (hd : ∀ c ∈ m.digest.toList, c.toNat ≠ 32)
    (ha : ∀ c ∈ m.digest_algorithm.toList, c.toNat ≠ 32)
    (ht : ∀ c ∈ m.anchor_type.toList, c.toNat ≠ 32)
    (hv : ∀ c ∈ m.version.toList, c.toNat ≠ 32)
    (hm : ∀ kv ∈ m.metadata, (∀ c ∈ kv.1.toList, c.toNat ≠ 32)
          ∧ ∀ s, kv.2 = JPrim.s s → ∀ c ∈ s.toList, c.toNat ≠ 32) :
    (m.data_pairs.map Prod.fst
        = ["digest", "algorithm", "type", "ts", "count", "start", "end", "v"]
          ++ if m.metadata.isEmpty then [] else ["meta"])
    ∧ ∀ b ∈ m.to_bytes, b ≠ 32 ∧ b ≠ 9 ∧ b ≠ 10 ∧ b ≠ 13 := by
  constructor
  · by_cases hme : m.metadata.isEmpty <;>
      simp [AnchorMessage.data_pairs, hme]
  · refine utf8Encode_not_ws _ ?_
    refine json_dumps_compact_not_ws _ ?_
    intro kv hkv
    simp only [AnchorMessage.data_pairs, List.mem_append, List.mem_cons,
      List.not_mem_nil, or_false] at hkv
    rcases hkv with (rfl | rfl | rfl | rfl | rfl | rfl | rfl | rfl) | hkv
    · exact pair_ob_str "digest" m.digest (by decide) hd
    · exact pair_ob_str "algorithm" m.digest_algorithm (by decide) ha
    · exact pair_ob_str "type" m.anchor_type (by decide) ht
    · exact pair_ob_int "ts" m.timestamp (by decide)
    · exact pair_ob_int "count" m.event_count (by decide)
    · exact pair_ob_int "start" m.start_time (by decide)
    · exact pair_ob_int "end" m.end_time (by decide)
    · exact pair_ob_str "v" m.version (by decide) hv
    · split_ifs at hkv with hme
      · simp at hkv
      · simp only [List.mem_singleton] at hkv
        subst hkv
        exact pair_ob_obj "meta" m.metadata (by decide) hm

/-- Witness for C7 (amended) at a concrete message with metadata. -/
theorem spec_c7_witness :
    (AnchorMessage.data_pairs
        { digest := "ff00", timestamp := 7, metadata := [("node", JPrim.s "edge")] }
      |>.map Prod.fst)
        = ["digest", "algorithm", "type", "ts", "count", "start", "end", "v", "meta"]
    ∧ ∀ b ∈ AnchorMessage.to_bytes
        { digest := "ff00", timestamp := 7, metadata := [("node", JPrim.s "edge")] },
        b ≠ 32 ∧ b ≠ 9 ∧ b ≠ 10 ∧ b ≠ 13 := by
  have hmeta : ∀ kv ∈ [(("node" : String), JPrim.s "edge")],
      (∀ c ∈ kv.1.toList, c.toNat ≠ 32)
        ∧ ∀ s, kv.2 = JPrim.s s → ∀ c ∈ s.toList, c.toNat ≠ 32 := by
    intro kv hkv
    simp only [List.mem_singleton] at hkv
    subst hkv
    refine ⟨by decide, fun s hs => ?_⟩
    cases hs
    decide
  have h := spec_c7_amended_compact_insertion_order
    { digest := "ff00", timestamp := 7, metadata := [("node", JPrim.s "edge")] }
    (by decide) (by decide) (by decide) (by decide) hmeta
  exact ⟨by simpa using h.1, h.2⟩

/-! ## Anchor workflow (claims C4 and C6) -/

/-- An anchors-table row with the fields the workflow reads and writes;
times and ids are naturals. -/
structure AnchorRecordM where
  id : Nat
  digest : Bytes
  start_time : Nat
  end_time : Nat
  item_count : Nat
  status : String
  iota_block_id : Option String
  error_message : Option String
  created_at : Nat
deriving DecidableEq, Repr

/-- An anchor_items row as written by save_anchor_item. -/
structure AnchorItemM where
  anchor_id : Nat
  event_hash : Bytes
  position : Nat
  proof_compact : List ProofElement
deriving DecidableEq, Repr

/-- The state the job touches: the anchors rows, the anchor_items rows, and
the number of post_anchor calls made to the ledger. -/
structure JobState where
  anchors : List AnchorRecordM
  items : List AnchorItemM
  ledger_posts : Nat
deriving DecidableEq, Repr

/-- Ledger metadata returned by a successful post_anchor call. -/
structure BlockMetadataM where
  block_id : String
  referenced_by_milestone : Bool
deriving DecidableEq, Repr

/-- Oracle for the outcomes of the job's effectful steps: the post_anchor
call inside AnchorService.create_anchor (error value = the raised
PostingError message), the save_anchor insert, each save_anchor_item
insert by position (missing entries succeed), and the uuid4 for the new
anchor. -/
structure JobEnv where
  post_result : Except String BlockMetadataM
  save_result : Except String Unit
  item_results : List (Except String Unit)
  fresh_id : Nat
deriving Repr

/-- Insertion step for ORDER BY created_at DESC. -/
def insertByCreatedDesc (a : AnchorRecordM) : List AnchorRecordM → List AnchorRecordM
  | [] => [a]
  | b :: rest =>
    if a.created_at > b.created_at then a :: b :: rest
    else b :: insertByCreatedDesc a rest

/-- Rows sorted by created_at descending. -/
def sortByCreatedDesc : List AnchorRecordM → List AnchorRecordM
  | [] => []
  | a :: rest => insertByCreatedDesc a (sortByCreatedDesc rest)

/-- AnchorRepository.list_anchors without a status filter: ORDER BY
created_at DESC LIMIT limit. -/
def list_anchors (anchors : List AnchorRecordM) (limit : Nat) : List AnchorRecordM :=
  (sortByCreatedDesc anchors).take limit

/-- AnchorWorkflow._check_existing_anchor: fetch list_anchors(limit=1) and
scan it for a row matching the digest and window. -/
def check_existing_anchor (anchors : List AnchorRecordM) (digest : Bytes)
    (start_time end_time : Nat) : Option AnchorRecordM :=
  (list_anchors anchors 1).find? fun a =>
    a.digest == digest && a.start_time == start_time && a.end_time == end_time

/-- AnchorService.create_anchor: post the anchor message via the ledger
oracle; on success the record carries the block id and is posted, or
confirmed when the metadata is already referenced by a milestone; a
PostingError is re-raised as AnchorServiceError("Failed to post anchor:
..."), which run_anchor_job stringifies. -/
def create_anchor (env : JobEnv) (digest : Bytes)
    (item_count start_time end_time : Nat) : Except String AnchorRecordM :=
  match env.post_result with
  | Except.error e => Except.error ("Failed to post anchor: " ++ e)
  | Except.ok meta =>
    Except.ok
      { id := env.fresh_id
        digest := digest
        start_time := start_time
        end_time := end_time
        item_count := item_count
        status := if meta.referenced_by_milestone then "confirmed" else "posted"
        iota_block_id := some meta.block_id
        error_message := none
        created_at := 0 }

/-- AnchorRepository.save_anchor: INSERT ... ON CONFLICT (digest,
start_time, end_time) DO UPDATE of the mutable fields, RETURNING id. -/
def save_anchor (record : AnchorRecordM) (anchors : List AnchorRecordM) :
    List AnchorRecordM × Nat :=
  match anchors.find? (fun a => a.digest == record.digest
      && a.start_time == record.start_time && a.end_time == record.end_time) with
  | some a =>
    (anchors.map fun b =>
      if b.id == a.id then
        { b with status := record.status
                 iota_block_id := record.iota_block_id
                 error_message := record.error_message }
      else b,
     a.id)
  | none => (anchors ++ [record], record.id)

/-- AnchorWorkflow._store_anchor_items: one save_anchor_item per event in
order, each insert committing on its own; the compact proof stored for
position i is the proof path from the tree. The first failing insert
raises, keeping the items already written. Returns the written rows and the
error of the failing insert, if any. -/
def store_items_from (H : Bytes → Bytes) (anchor_id : Nat) (level : List Bytes) :
    Nat → List Bytes → List (Except String Unit) → List AnchorItemM × Option String
  | _, [], _ => ([], none)
  | i, h :: rest, results =>
    match results.getD i (Except.ok ()) with
    | Except.error e => ([], some e)
    | Except.ok _ =>
      let item : AnchorItemM :=
        { anchor_id := anchor_id
          event_hash := h
          position := i
          proof_compact := proof_path_from H level i }
      let next := store_items_from H anchor_id level (i + 1) rest results
      (item :: next.1, next.2)

/-- The failure AnchorResult built by run_anchor_job's except branch. -/
structure AnchorResultM where
  success : Bool
  anchor_id : Option Nat
  digest : Option Bytes
  event_count : Nat
  iota_block_id : Option String
  error : Option String
deriving DecidableEq, Repr

/-- run_anchor_job's except-Exception branch result. -/
def job_failure (e : String) : AnchorResultM :=
  { success := false, anchor_id := none, digest := none, event_count := 0,
    iota_block_id := none, error := some e }

/-- AnchorWorkflow.run_anchor_job over the step oracles: fetch the window
events (their hashes), return empty success on an empty window, build the
tree with from_raw_hashes, return duplicate success if
_check_existing_anchor finds a row, otherwise create_anchor (ledger post),
save_anchor, then store the items; every raised non-cancellation error is
caught and becomes a success=false result carrying the message. -/
def run_anchor_job (H : Bytes → Bytes) (env : JobEnv) (start_time end_time : Nat)
    (fetch_result : Except String (List Bytes)) (st : JobState) :
    AnchorResultM × JobState :=
  match fetch_result with
  | Except.error e => (job_failure e, st)
  | Except.ok event_hashes =>
    if event_hashes.isEmpty then
      ({ success := true, anchor_id := none, digest := none, event_count := 0,
         iota_block_id := none, error := none }, st)
    else
      let digest := build_root H event_hashes
      match check_existing_anchor st.anchors digest start_time end_time with
      | some existing =>
        ({ success := true, anchor_id := some existing.id, digest := some digest,
           event_count := event_hashes.length,
           iota_block_id := existing.iota_block_id, error := none }, st)
      | none =>
        let st1 : JobState := { st with ledger_posts := st.ledger_posts + 1 }
        match create_anchor env digest event_hashes.length start_time end_time with
        | Except.error e => (job_failure e, st1)
        | Except.ok record =>
          match env.save_result with
          | Except.error e => (job_failure e, st1)
          | Except.ok _ =>
            let st2 : JobState := { st1 with anchors := (save_anchor record st1.anchors).1 }
            let written := store_items_from H record.id event_hashes 0 event_hashes
              env.item_results
            let st3 : JobState := { st2 with items := st2.items ++ written.1 }
            match written.2 with
            | some e => (job_failure e, st3)
            | none =>
              ({ success := true, anchor_id := some record.id, digest := some digest,
                 event_count := event_hashes.length,
                 iota_block_id := record.iota_block_id, error := none }, st3)

/-- A posted anchor matching the window being re-anchored, created before a
later unrelated anchor. -/
def c4_matching : AnchorRecordM :=
  { id := 1, digest := [0xAA], start_time := 0, end_time := 10, item_count := 1,
    status := "posted", iota_block_id := some "b1", error_message := none,
    created_at := 5 }

/-- A later anchor for a different window; being newest, it is the one row
list_anchors(limit=1) returns. -/
def c4_other : AnchorRecordM :=
  { id := 2, digest := [0xBB], start_time := 20, end_time := 30, item_count := 1,
    status := "posted", iota_block_id := some "b2", error_message := none,
    created_at := 7 }

/-- Repository state for the C4 failing input. -/
def c4_state : JobState :=
  { anchors := [c4_matching, c4_other], items := [], ledger_posts := 0 }

/-- Step oracle for the C4 failing input: every effect succeeds. -/
def c4_env : JobEnv :=
  { post_result := Except.ok { block_id := "b3", referenced_by_milestone := false },
    save_result := Except.ok (), item_results := [], fresh_id := 9 }

/-- C4 (code bug). With a repository holding an anchor for exactly the
(digest, start, end) being re-anchored but a newer anchor created after it,
_check_existing_anchor (which reads only list_anchors(limit=1), the single
newest row) misses the duplicate, the ledger is posted to again, and the
returned result references a fresh id rather than the existing anchor's. -/
theorem spec_c4_duplicate_check_misses_older_anchor :
    (c4_state.anchors.any fun a =>
        a.digest == ([0xAA] : Bytes) && a.start_time == 0 && a.end_time == 10) = true
    ∧ check_existing_anchor c4_state.anchors [0xAA] 0 10 = none
    ∧ (run_anchor_job (fun b => 0 :: b) c4_env 0 10
        (Except.ok [[0xAA]]) c4_state).2.ledger_posts = 1
    ∧ (run_anchor_job (fun b => 0 :: b) c4_env 0 10
        (Except.ok [[0xAA]]) c4_state).1.anchor_id = some 9 := by
  decide

/-- Step oracle for the C6 counterexample: the ledger post raises. -/
def c6_env : JobEnv :=
  { post_result := Except.error "boom", save_result := Except.ok (),
    item_results := [], fresh_id := 3 }

/-- Empty repository state for the C6 counterexample. -/
def c6_state : JobState := { anchors := [], items := [], ledger_posts := 0 }

/-- C6 counterexample. When the ledger post raises, run_anchor_job returns
success=false with the error message and writes no items, but no Anchor row
in failed status (or any status) is recorded at all: the claim's "the
Anchor is recorded in failed status with error_message set" is false. -/
theorem spec_c6_counterexample :
    (run_anchor_job (fun b => 0 :: b) c6_env 0 10
        (Except.ok [[1]]) c6_state).1.success = false
    ∧ (run_anchor_job (fun b => 0 :: b) c6_env 0 10
        (Except.ok [[1]]) c6_state).1.error = some "Failed to post anchor: boom"
    ∧ (run_anchor_job (fun b => 0 :: b) c6_env 0 10
        (Except.ok [[1]]) c6_state).2.anchors = []
    ∧ (run_anchor_job (fun b => 0 :: b) c6_env 0 10
        (Except.ok [[1]]) c6_state).2.items = [] := by
  decide

/-- C6 (amended). Every downstream error is caught and becomes a
success=false AnchorResult carrying the message, with no exception
reaching the caller; but failure is never persisted as a failed Anchor:
a fetch error leaves the state untouched, a ledger-post or anchor-save
error leaves the anchors and items untouched (no row in failed status is
written), and an item-persistence error leaves the anchor row in its
posted or confirmed status with error_message none, keeping the items
saved before the failing one. -/
theorem spec_c6_amended_errors_caught_not_persisted (H : Bytes → Bytes) (env : JobEnv)
    (start_time end_time : Nat) (st : JobState) :
    (∀ e, run_anchor_job H env start_time end_time (Except.error e) st
        = (job_failure e, st))
    ∧ (∀ hashes e, hashes ≠ [] →
        check_existing_anchor st.anchors (build_root H hashes) start_time end_time
          = none →
        env.post_result = Except.error e →
        run_anchor_job H env start_time end_time (Except.ok hashes) st
          = (job_failure ("Failed to post anchor: " ++ e),
             { st with ledger_posts := st.ledger_posts + 1 }))
    ∧ (∀ hashes meta e, hashes ≠ [] →
        check_existing_anchor st.anchors (build_root H hashes) start_time end_time
          = none →
        env.post_result = Except.ok meta →
        env.save_result = Except.error e →
        run_anchor_job H env start_time end_time (Except.ok hashes) st
          = (job_failure e, { st with ledger_posts := st.ledger_posts + 1 }))
    ∧ (∀ hashes meta e, hashes ≠ [] →
        check_existing_anchor st.anchors (build_root H hashes) start_time end_time
          = none →
        env.post_result = Except.ok meta →
        env.save_result = Except.ok () →
        (store_items_from H env.fresh_id hashes 0 hashes env.item_results).2 = some e →
        run_anchor_job H env start_time end_time (Except.ok hashes) st
          = (job_failure e,
             { anchors :=
                 (save_anchor
                   { id := env.fresh_id, digest := build_root H hashes
                     start_time := start_time, end_time := end_time
                     item_count := hashes.length
                     status := if meta.referenced_by_milestone then "confirmed"
                       else "posted"
                     iota_block_id := some meta.block_id
                     error_message := none, created_at := 0 } st.anchors).1
               items := st.items
                 ++ (store_items_from H env.fresh_id hashes 0 hashes
                      env.item_results).1
               ledger_posts := st.ledger_posts + 1 })) := by
  refine ⟨fun e => rfl, ?_, ?_, ?_⟩
  · intro hashes e hne hdup hpost
    have hie : hashes.isEmpty = false := by simpa [List.isEmpty_iff] using hne
    simp only [run_anchor_job, hie, Bool.false_eq_true, if_false, hdup, create_anchor,
      hpost]
  · intro hashes meta e hne hdup hpost hsave
    have hie : hashes.isEmpty = false := by simpa [List.isEmpty_iff] using hne
    simp only [run_anchor_job, hie, Bool.false_eq_true, if_false, hdup, create_anchor,
      hpost, hsave]
  · intro hashes meta e hne hdup hpost hsave hitems
    have hie : hashes.isEmpty = false := by simpa [List.isEmpty_iff] using hne
    simp only [run_anchor_job, hie, Bool.false_eq_true, if_false, hdup, create_anchor,
      hpost, hsave, hitems]

/-- Step oracle for the C6 witness: the ledger post and anchor save
succeed, the second item insert fails. -/
def c6w_env : JobEnv :=
  { post_result := Except.ok { block_id := "b9", referenced_by_milestone := false },
    save_result := Except.ok (),
    item_results := [Except.ok (), Except.error "disk full"], fresh_id := 4 }

/-- Empty repository state for the C6 witness. -/
def c6w_state : JobState := { anchors := [], items := [], ledger_posts := 0 }

/-- Witness for C6 (amended) at the item-persistence failure branch. -/
theorem spec_c6_witness :
    run_anchor_job (fun b => 0 :: b) c6w_env 0 10 (Except.ok [[1], [2]]) c6w_state
      = (job_failure "disk full",
         { anchors :=
             (save_anchor
               { id := c6w_env.fresh_id, digest := build_root (fun b => 0 :: b) [[1], [2]]
                 start_time := 0, end_time := 10
                 item_count := ([[1], [2]] : List Bytes).length
                 status := if (false : Bool) then "confirmed" else "posted"
                 iota_block_id := some "b9"
                 error_message := none, created_at := 0 } c6w_state.anchors).1
           items := c6w_state.items
             ++ (store_items_from (fun b => 0 :: b) c6w_env.fresh_id [[1], [2]] 0
                  [[1], [2]] c6w_env.item_results).1
           ledger_posts := c6w_state.ledger_posts + 1 }) :=
  (spec_c6_amended_errors_caught_not_persisted (fun b => 0 :: b) c6w_env 0 10
      c6w_state).2.2.2
    [[1], [2]] { block_id := "b9", referenced_by_milestone := false } "disk full"
    (by decide) (by decide) rfl rfl (by decide)

/-! ## Reconciliation (claim C8) -/

/-- ReconciliationService._calculate_backoff: base * 2^retry_count, capped. -/
def calculate_backoff (base cap retry_count : Nat) : Nat :=
  min (base * 2 ^ retry_count) cap

/-- The observable effects of processing one anchor during a scan: the
returned outcome string, whether _retry_anchor (which re-posts to the
ledger via create_anchor) was invoked, and the status update written as
(status, error_message). -/
structure ScanDecision where
  outcome : String
  retried : Bool
  status_update : Option (String × Option String)
deriving DecidableEq, Repr

/-- The retry branch shared by _process_pending_anchor: _retry_anchor
re-posts and updates the status to the new record's status; on an exception
_record_failure writes failed with the message. retry_result carries the
re-posted record's status or the raised message. -/
def pending_retry_branch (retry_result : Except String String) : ScanDecision :=
  match retry_result with
  | Except.ok new_status =>
    { outcome := "retried", retried := true, status_update := some (new_status, none) }
  | Except.error e =>
    { outcome := "failed", retried := true, status_update := some ("failed", some e) }

/-- ReconciliationService._process_pending_anchor: at or past the retry cap
the anchor is marked for review by _mark_for_review (status failed with the
review message) without any retry; below the cap a retry happens unless the
time since the last attempt is still within the backoff delay. -/
def process_pending_anchor (max_retries base cap retry_count : Nat)
    (since_last_attempt : Option Nat) (retry_result : Except String String) :
    ScanDecision :=
  if retry_count ≥ max_retries then
    { outcome := "review", retried := false,
      status_update :=
        some ("failed", some "Max retries exceeded - requires manual review") }
  else
    match since_last_attempt with
    | some elapsed =>
      if elapsed < calculate_backoff base cap retry_count then
        { outcome := "pending", retried := false, status_update := none }
      else pending_retry_branch retry_result
    | none => pending_retry_branch retry_result

/-- The retry branch of _process_failed_anchor: a raised retry returns
"review" without writing a status. -/
def failed_retry_branch (retry_result : Except String String) : ScanDecision :=
  match retry_result with
  | Except.ok new_status =>
    { outcome := "retried", retried := true, status_update := some (new_status, none) }
  | Except.error _ =>
    { outcome := "review", retried := true, status_update := none }

/-- ReconciliationService._process_failed_anchor: at or past the retry cap
it returns "review" immediately, with no retry and no status write; below
the cap it retries once the anchor's age exceeds the backoff delay. -/
def process_failed_anchor (max_retries base cap retry_count : Nat)
    (age : Option Nat) (retry_result : Except String String) : ScanDecision :=
  if retry_count ≥ max_retries then
    { outcome := "review", retried := false, status_update := none }
  else
    match age with
    | some a =>
      if a < calculate_backoff base cap retry_count then
        { outcome := "waiting", retried := false, status_update := none }
      else failed_retry_branch retry_result
    | none => failed_retry_branch retry_result

/-- ReconciliationService._check_confirmation on a posted anchor: reads
ledger metadata only (no submission); confirms when the ledger reports the
block referenced by a milestone. -/
def check_confirmation_scan (has_block_id confirmed : Bool) : ScanDecision :=
  if !has_block_id then { outcome := "failed", retried := false, status_update := none }
  else if confirmed then
    { outcome := "confirmed", retried := false,
      status_update := some ("confirmed", none) }
  else { outcome := "pending", retried := false, status_update := none }

/-- C8 counterexample. At the retry cap the pending scan does transition
the anchor to failed, but with the message "Max retries exceeded - requires
manual review", not the claimed "exceeded retries; needs review". -/
theorem spec_c8_counterexample :
    ¬ (process_pending_anchor 3 60 3600 3 none (Except.ok "posted")).status_update
        = some ("failed", some "exceeded retries; needs review") := by
  decide

/-- C8 (amended). Once the recorded retry count has reached max_retries the
anchor is never submitted to the ledger again in any scan: the pending scan
marks it failed with the review message "Max retries exceeded - requires
manual review" without retrying, the failed scan returns review without
retrying or writing, and the posted scan never submits at all. -/
theorem spec_c8_amended_retry_cap (max_retries base cap retry_count : Nat)
    (since_last_attempt age : Option Nat) (res res' : Except String String)
    (h : retry_count ≥ max_retries) :
    (process_pending_anchor max_retries base cap retry_count
        since_last_attempt res).retried = false
    ∧ (process_pending_anchor max_retries base cap retry_count
        since_last_attempt res).outcome = "review"
    ∧ (process_pending_anchor max_retries base cap retry_count
        since_last_attempt res).status_update
        = some ("failed", some "Max retries exceeded - requires manual review")
    ∧ (process_failed_anchor max_retries base cap retry_count age res').retried = false
    ∧ (process_failed_anchor max_retries base cap retry_count age res').outcome
        = "review"
    ∧ (process_failed_anchor max_retries base cap retry_count age res').status_update
        = none
    ∧ ∀ hb cf, (check_confirmation_scan hb cf).retried = false := by
  refine ⟨?_, ?_, ?_, ?_, ?_, ?_, ?_⟩
  · unfold process_pending_anchor
    rw [if_pos h]
  · unfold process_pending_anchor
    rw [if_pos h]
  · unfold process_pending_anchor
    rw [if_pos h]
  · unfold process_failed_anchor
    rw [if_pos h]
  · unfold process_failed_anchor
    rw [if_pos h]
  · unfold process_failed_anchor
    rw [if_pos h]
  · intro hb cf
    unfold check_confirmation_scan
    match hb, cf with
    | true, true => rfl
    | true, false => rfl
    | false, _ => rfl

/-- Witness for C8 (amended) at max_retries = 3 and retry count 3. -/
theorem spec_c8_witness :
    (process_pending_anchor 3 60 3600 3 (some 10000) (Except.ok "posted")).retried
        = false
    ∧ (process_pending_anchor 3 60 3600 3 (some 10000)
        (Except.ok "posted")).outcome = "review"
    ∧ (process_pending_anchor 3 60 3600 3 (some 10000)
        (Except.ok "posted")).status_update
        = some ("failed", some "Max retries exceeded - requires manual review")
    ∧ (process_failed_anchor 3 60 3600 3 (some 10000)
        (Except.ok "posted")).retried = false
    ∧ (process_failed_anchor 3 60 3600 3 (some 10000)
        (Except.ok "posted")).outcome = "review"
    ∧ (process_failed_anchor 3 60 3600 3 (some 10000)
        (Except.ok "posted")).status_update = none
    ∧ ∀ hb cf, (check_confirmation_scan hb cf).retried = false :=
  spec_c8_amended_retry_cap 3 60 3600 3 (some 10000) (some 10000)
    (Except.ok "posted") (Except.ok "posted") (by decide)
